import Mathlib

/-!
Formal model of the whispera audio transcription pipeline
(src/back/transcription.py) and of the external media tool locator
(src/back/utils.py, function check_ffmpeg), together with proofs about the
behaviour of those components.

Modelling conventions:
  - Byte counts and millisecond durations are natural numbers.
  - Python float arithmetic in the split plan (lines 121 to 122 of
    transcription.py) is modelled exactly, by fractions of natural numbers;
    the Python builtin int truncation on a nonnegative value is the floor
    of the exact fraction.
  - Filesystem state and remote calls are modelled by an explicit World
    record threaded through the functions, and by oracles (TranscriptionEnv,
    FfmpegEnv) describing what the environment does at each external call.
  - Python exceptions raised by external collaborators are modelled with
    Except values supplied by the oracles.
  - Paths are plain strings, already absolute and normalised, joined with a
    forward slash; os.path.normpath, os.path.abspath and str.strip are
    modelled as the identity on such paths.
-/

namespace Whispera

/-! ### String helpers -/

/-- Boolean test that the second list is an initial segment of the first
list of characters (model of the Python str.startswith test). -/
def leadsWith : List Char → List Char → Bool
  | _, [] => true
  | [], _ :: _ => false
  | c :: cs, p :: ps => p = c && leadsWith cs ps

/-- Model of Python str.startswith. -/
def startsW (s pat : String) : Bool := leadsWith s.data pat.data

/-- Boolean test that the pattern occurs as a contiguous sublist. -/
def hasSubL (pat : List Char) : List Char → Bool
  | [] => leadsWith [] pat
  | c :: cs => leadsWith (c :: cs) pat || hasSubL pat cs

/-- Model of the Python membership test pat in s on strings. -/
def hasSub (s pat : String) : Bool := hasSubL pat.data s.data

/-- Model of Python str.endswith. -/
def endsW (s pat : String) : Bool := leadsWith s.data.reverse pat.data.reverse

/-- Model of Python str.lower (the inputs in scope are ASCII). -/
def lowerStr (s : String) : String := String.mk (s.data.map Char.toLower)

/-- Model of os.path.join on a directory and a file name. -/
def joinP (d f : String) : String := d ++ "/" ++ f

/-- Model of os.path.dirname: everything before the last slash. -/
def dirnameP (p : String) : String :=
  String.mk (((p.data.reverse.dropWhile (fun c => c ≠ '/')).drop 1).reverse)

/-! ### Constants from src/back/constants.py -/

def MAX_FILE_SIZE_MB : Nat := 25

def MAX_FILE_SIZE_BYTES : Nat := MAX_FILE_SIZE_MB * 1024 * 1024

def CHUNK_SIZE_MB : Nat := 20

/-- Exact nonnegative fraction num over den, with positive denominator, used
to model the Python float arithmetic of the split plan exactly. -/
structure Frac where
  num : Nat
  den : Nat
deriving Repr, DecidableEq

/-- Division of a natural number by a fraction: a / (n / d) = (a * d) / n. -/
def Frac.natDiv (a : Nat) (x : Frac) : Frac := ⟨a * x.den, x.num⟩

/-- Product of two fractions. -/
def Frac.mul (x y : Frac) : Frac := ⟨x.num * y.num, x.den * y.den⟩

/-- Floor of a nonnegative fraction; this is the value of the Python int
builtin on the (nonnegative) modelled float. -/
def Frac.floor (x : Frac) : Nat := x.num / x.den

/-- Safety factor 0.9 from constants.py, modelled exactly as 9 over 10. -/
def CHUNK_SIZE_SAFETY_FACTOR : Frac := ⟨9, 10⟩

def SUPPORTED_FORMATS : List String :=
  [".mp3", ".mp4", ".mpeg", ".mpga", ".m4a", ".wav", ".webm"]

def AUDIO_BITRATE_HIGH : String := "128k"

def AUDIO_BITRATE_LOW : String := "64k"

/-! ### User facing message strings from transcription.py -/

def please_select_error : String := "Please select an audio or video file."

def file_not_found_error : String :=
  "Error: File not found. Please select a valid file."

def unsupported_format_error : String :=
  "Error: Unsupported file format. Supported formats: "
    ++ String.intercalate ", " SUPPORTED_FORMATS

def no_api_key_error : String :=
  "Error: OpenAI API key not set. Please enter your API key in the settings."

def pydub_missing_error : String :=
  "pydub library not available. Please install it: pip install pydub\nNote: ffmpeg is also required for audio processing."

def ffmpeg_missing_error : String :=
  "ffmpeg is not installed or not found.\n\nTo enable automatic file splitting, please install ffmpeg:\n\nOption 1 (Recommended): Download from https://ffmpeg.org/download.html\n  - Extract and add to PATH, OR\n  - Place ffmpeg.exe in the same folder as this app\n\nOption 2: Use package manager\n  - Chocolatey: choco install ffmpeg\n  - Winget: winget install ffmpeg\n\nAfter installing, restart the application."

/-- Wrapper applied at line 161 of transcription.py to the text of an
exception caught while splitting. -/
def split_error_text (e : String) : String :=
  "Error splitting audio file: " ++ e
    ++ "\nNote: ffmpeg may be required. Install from: https://ffmpeg.org/"

/-- Text of the Python ZeroDivisionError raised by the integer division
at line 132 of transcription.py when the chunk duration is zero. -/
def zero_division_message : String := "integer division or modulo by zero"

/-! ### Split plan arithmetic, lines 119 to 139 of transcription.py -/

/-- Line 121: average bytes per millisecond, with the divide by zero
guard on a zero duration. -/
def bytes_per_ms (file_size duration_ms : Nat) : Frac :=
  if duration_ms > 0 then ⟨file_size, duration_ms⟩ else ⟨0, 1⟩

/-- Lines 122 to 125: the target chunk duration in milliseconds, with the
fallback to half the duration when the computed value is not positive.
The fraction bytes_per_ms is positive exactly when its numerator is.  The
modelled value of the Python expression is always nonnegative, so the
Python test for a value at most zero is the test for zero here, and the
result lives in Nat. -/
def chunk_duration_ms (file_size duration_ms max_size : Nat) : Nat :=
  let bpm := bytes_per_ms file_size duration_ms
  let cd : Nat :=
    if 0 < bpm.num then ((Frac.natDiv max_size bpm).mul CHUNK_SIZE_SAFETY_FACTOR).floor
    else duration_ms
  if cd = 0 then duration_ms / 2 else cd

/-- Line 132: the chunk count; none models the Python ZeroDivisionError
raised when the chunk duration is zero. -/
def num_chunks (duration_ms cd : Nat) : Option Nat :=
  if cd = 0 then none
  else some (duration_ms / cd + (if duration_ms % cd > 0 then 1 else 0))

/-- Line 135: start of the chunk with zero based index i. -/
def chunk_start (cd i : Nat) : Nat := i * cd

/-- Line 136: exclusive end of the chunk with zero based index i. -/
def chunk_end (cd d i : Nat) : Nat := min ((i + 1) * cd) d

/-- Ceiling division used to state the chunk count property. -/
def ceilDiv (d cd : Nat) : Nat := (d + cd - 1) / cd

/-! ### Effectful pipeline model

The pipeline is modelled as a state transformer over an explicit World
record.  The World tracks the observable effects of a run: the sequence of
paths sent to the remote transcription client, the number of invocations of
the split plan computation, the temporary chunk files and temporary
directories currently on disk, and the log of exported chunk time ranges in
export order. -/

structure World where
  clientCalls : List String
  splitCalls : Nat
  disk : List String
  tempDirs : List String
  exportLog : List (Nat × Nat)
deriving Repr, DecidableEq

def World.empty : World := ⟨[], 0, [], [], []⟩

/-- Outcome of one call to the remote transcription client: either the
returned text, or the text of the raised exception. -/
inductive ClientResult where
  | ok (text : String)
  | exn (msg : String)
deriving Repr, DecidableEq

/-- Oracle describing the environment of one pipeline run: the audio file
size on disk, availability of pydub and ffmpeg, the result of loading the
audio (exception text or probed duration in ms), the per chunk export
outcomes at high and at low bitrate (exception text or produced file size),
the behaviour of the remote client per submitted path, and file existence
for the precondition checks. -/
structure TranscriptionEnv where
  hasClient : Bool
  fileSize : Nat
  pydubAvailable : Bool
  ffmpegAvailable : Bool
  load : Except String Nat
  exportHigh : Nat → Except String Nat
  exportLow : Nat → Except String Nat
  client : String → ClientResult
  fileExists : String → Bool

/-- Model of the directory created by tempfile.mkdtemp at line 128. -/
def temp_dir_name : String := "/tmp/whispera_chunks"

/-- Line 139: path of the chunk with zero based index i (the file name uses
one based numbering). -/
def chunk_path (i : Nat) : String :=
  joinP temp_dir_name ("chunk_" ++ toString (i + 1) ++ ".mp3")

/-- Lines 134 to 151 of transcription.py: export each chunk in ascending
index order; a chunk whose high bitrate export exceeds the size limit is re
exported once at the low bitrate to the same path.  An exception raised by
an export aborts the loop at once (it is caught by the handler at line 155);
chunks already written stay on disk. -/
def export_loop (env : TranscriptionEnv) (max_size cd d : Nat) :
    List Nat → World → List String → (Except String (List String)) × World
  | [], w, acc => (.ok acc.reverse, w)
  | i :: rest, w, acc =>
    let s := chunk_start cd i
    let e := chunk_end cd d i
    let path := chunk_path i
    match env.exportHigh i with
    | .error msg => (.error msg, w)
    | .ok size =>
      let w := { w with disk := w.disk ++ [path], exportLog := w.exportLog ++ [(s, e)] }
      if size > max_size then
        match env.exportLow i with
        | .error msg => (.error msg, w)
        | .ok _ => export_loop env max_size cd d rest w (path :: acc)
      else export_loop env max_size cd d rest w (path :: acc)

/-- Lines 50 to 161 of transcription.py, method _split_audio_file.  Returns
the pair (chunk paths, error) exactly as the source does: (none, none) when
the file needs no splitting, (none, some e) on any failure, and
(some paths, none) on a successful split.  The splitCalls counter is
instrumentation recording that the split plan computation ran. -/
def split_audio_file (env : TranscriptionEnv) (max_size_mb : Nat) (w : World) :
    (Option (List String) × Option String) × World :=
  let w := { w with splitCalls := w.splitCalls + 1 }
  if ¬ env.pydubAvailable then ((none, some pydub_missing_error), w)
  else if ¬ env.ffmpegAvailable then ((none, some ffmpeg_missing_error), w)
  else
    match env.load with
    | .error e => ((none, some (split_error_text e)), w)
    | .ok duration_ms =>
      let file_size := env.fileSize
      let max_size := max_size_mb * 1024 * 1024
      if file_size ≤ max_size then ((none, none), w)
      else
        let cd := chunk_duration_ms file_size duration_ms max_size
        let w := { w with tempDirs := w.tempDirs ++ [temp_dir_name] }
        match num_chunks duration_ms cd with
        | none => ((none, some (split_error_text zero_division_message)), w)
        | some n =>
          match export_loop env max_size cd duration_ms (List.range n) w [] with
          | (.error e, w2) => ((none, some (split_error_text e)), w2)
          | (.ok paths, w2) => ((some paths, none), w2)

/-- Lines 173 to 180 of transcription.py: categorisation of an exception
raised by the remote client. -/
def categorize_error (e : String) : String :=
  if hasSub e "400" || hasSub e "invalid_request_error" then
    "Error: Invalid file format or file is corrupted. Details: " ++ e
  else if hasSub e "401" || hasSub (lowerStr e) "unauthorized" then
    "Error: Invalid API key. Details: " ++ e
  else
    "Error during transcription: " ++ e

/-- The text produced for one submitted path: the client text on success,
the categorised error text on an exception. -/
def chunk_text (env : TranscriptionEnv) (audio_path : String) : String :=
  match env.client audio_path with
  | .ok t => t
  | .exn e => categorize_error e

/-- Lines 163 to 180 of transcription.py, method transcribe_audio_chunk;
the call to the remote client is recorded in the World. -/
def transcribe_audio_chunk (env : TranscriptionEnv) (audio_path : String)
    (w : World) : String × World :=
  (chunk_text env audio_path, { w with clientCalls := w.clientCalls ++ [audio_path] })

/-- Lines 209 to 218 of transcription.py: transcribe the chunks in order,
aborting on the first chunk whose text starts with the string Error. -/
def transcribe_chunks (env : TranscriptionEnv) :
    List String → World → List String → (Except String (List String)) × World
  | [], w, acc => (.ok acc.reverse, w)
  | p :: rest, w, acc =>
    let r := transcribe_audio_chunk env p w
    if startsW r.1 "Error" then (.error r.1, r.2)
    else transcribe_chunks env rest r.2 (r.1 :: acc)

/-- Lines 231 to 240 of transcription.py: the finally block removing every
chunk file still on disk and then the temporary directory. -/
def cleanup_chunks (chunk_paths : List String) (temp_dir : String) (w : World) : World :=
  { w with disk := w.disk.filter (fun p => ¬ (p ∈ chunk_paths)),
           tempDirs := w.tempDirs.filter (fun d => d ≠ temp_dir) }

/-- Separator used at line 224 of transcription.py. -/
def chunk_separator : String := "\n\n"

/-- Lines 182 to 252 of transcription.py, method transcribe_audio. -/
def transcribe_audio (env : TranscriptionEnv) (audio_path : String) (w : World) :
    String × World :=
  if ¬ env.hasClient then (no_api_key_error, w)
  else if env.fileSize > MAX_FILE_SIZE_BYTES then
    match split_audio_file env CHUNK_SIZE_MB w with
    | ((_, some e), w1) => (e, w1)
    | ((none, none), w1) => transcribe_audio_chunk env audio_path w1
    | ((some [], none), w1) => transcribe_audio_chunk env audio_path w1
    | ((some (p0 :: rest), none), w1) =>
      let chunk_paths := p0 :: rest
      let temp_dir := dirnameP p0
      match transcribe_chunks env chunk_paths w1 [] with
      | (.error e, w2) => (e, cleanup_chunks chunk_paths temp_dir w2)
      | (.ok ts, w2) =>
        (String.intercalate chunk_separator ts, cleanup_chunks chunk_paths temp_dir w2)
  else transcribe_audio_chunk env audio_path w

/-- Line 269 of transcription.py: the case insensitive extension check. -/
def supported_format (audio_path : String) : Bool :=
  SUPPORTED_FORMATS.any (fun ext => endsW (lowerStr audio_path) ext)

/-- Lines 254 to 281 of transcription.py, method process_audio.  The empty
path models both the Python None argument and the empty string, the two
falsy inputs of the check at line 259.  The source returns the
transcription unchanged whether or not it starts with Error (lines 275 to
278), which the final conditional mirrors. -/
def process_audio (env : TranscriptionEnv) (audio_path : String) (w : World) :
    String × World :=
  if audio_path = "" then (please_select_error, w)
  else if ¬ env.fileExists audio_path then (file_not_found_error, w)
  else if ¬ supported_format audio_path then (unsupported_format_error, w)
  else
    let r := transcribe_audio env audio_path w
    if startsW r.1 "Error" then (r.1, r.2) else (r.1, r.2)

/-! ### Media tool locator, src/back/utils.py function check_ffmpeg

The filesystem is modelled by the lists of existing files and directories;
PATH is modelled by its list of entries (the source stores it as a pathsep
joined string and always mutates it by prepending one directory, modelled
by list cons).  The shutil.which lookup is modelled with the Windows
resolution the source targets: the first PATH entry containing ffmpeg.exe
wins.  The final subprocess probe of ffmpeg -version is modelled by the
boolean probeOk. -/

structure FfmpegEnv where
  files : List String
  dirs : List String
  path : List String
  frozen : Bool
  exeDir : String
  appRoot : String
  probeOk : Bool

/-- Model of os.path.exists. -/
def pexists (env : FfmpegEnv) (p : String) : Bool :=
  env.files.contains p || env.dirs.contains p

/-- Model of os.path.isdir. -/
def isDirF (env : FfmpegEnv) (p : String) : Bool := env.dirs.contains p

/-- Model of os.path.isfile. -/
def isFileF (env : FfmpegEnv) (p : String) : Bool := env.files.contains p

/-- Model of shutil.which for the name ffmpeg: scan the PATH entries in
order for one containing ffmpeg.exe. -/
def which_ffmpeg (files : List String) : List String → Option String
  | [] => none
  | d :: rest =>
    if joinP d "ffmpeg.exe" ∈ files then some (joinP d "ffmpeg.exe")
    else which_ffmpeg files rest

/-- Lines 36 to 58 of utils.py: the custom hint branch.  Returns the
resolved executable path together with the directory the source prepends
to PATH on that branch, or none when the branch falls through. -/
def custom_lookup (env : FfmpegEnv) (custom : String) : Option (String × String) :=
  if custom = "" then none
  else if isDirF env custom then
    let fex := joinP custom "ffmpeg.exe"
    if pexists env fex then some (fex, dirnameP fex) else none
  else if isFileF env custom then some (custom, dirnameP custom)
  else none

/-- Lines 66 to 81 of utils.py: the frozen executable directory and its
ffmpeg subdirectory. -/
def frozen_lookup (env : FfmpegEnv) : Option (String × String) :=
  if env.frozen then
    let fe := joinP env.exeDir "ffmpeg.exe"
    if pexists env fe then some (fe, env.exeDir)
    else
      let fd := joinP env.exeDir "ffmpeg"
      if pexists env fd then
        let fe2 := joinP fd "ffmpeg.exe"
        if pexists env fe2 then some (fe2, fd) else none
      else none
  else none

/-- Lines 85 to 110 of utils.py: the application root directory and its
ffmpeg subdirectory; the root is the executable directory when frozen and
the project root otherwise. -/
def app_lookup (env : FfmpegEnv) : Option (String × String) :=
  let app := if env.frozen then env.exeDir else env.appRoot
  let fe := joinP app "ffmpeg.exe"
  if pexists env fe then some (fe, app)
  else
    let fd := joinP app "ffmpeg"
    if pexists env fd then
      let fe2 := joinP fd "ffmpeg.exe"
      if pexists env fe2 then some (fe2, dirnameP fe2) else none
    else none

/-- Lines 24 to 126 of utils.py, function check_ffmpeg.  Returns the pair
(availability, resolved path) and the PATH after the call.  Each branch
that locates an executable file prepends its directory to PATH; the
shutil.which branch (lines 61 to 63) and the subprocess probe branch
(lines 112 to 123) leave PATH unchanged. -/
def check_ffmpeg (env : FfmpegEnv) (custom : String) :
    (Bool × Option String) × List String :=
  match custom_lookup env custom with
  | some (p, d) => ((true, some p), d :: env.path)
  | none =>
    match which_ffmpeg env.files env.path with
    | some wp => ((true, some wp), env.path)
    | none =>
      match frozen_lookup env with
      | some (p, d) => ((true, some p), d :: env.path)
      | none =>
        match app_lookup env with
        | some (p, d) => ((true, some p), d :: env.path)
        | none =>
          if env.probeOk then ((true, some "ffmpeg"), env.path)
          else ((false, none), env.path)

/-! ### Concrete scenario environments used to exercise the model -/

/-- A baseline healthy environment: client configured, pydub and ffmpeg
available, audio loads with the given duration, every export succeeds with
a one megabyte chunk, every file exists. -/
def base_env (file_size duration : Nat) (client : String → ClientResult) :
    TranscriptionEnv :=
  { hasClient := true, fileSize := file_size, pydubAvailable := true,
    ffmpegAvailable := true, load := .ok duration,
    exportHigh := fun _ => .ok 1048576, exportLow := fun _ => .ok 524288,
    client := client, fileExists := fun _ => true }

/-- A 50 megabyte, 600 second file whose second chunk export raises. -/
def envC1bad : TranscriptionEnv :=
  { base_env 52428800 600000 (fun _ => .ok "text") with
    exportHigh := fun i => if i = 0 then .ok 1048576 else .error "No space left on device" }

/-- A 50 megabyte, 600 second file with a fully successful split. -/
def envC1good : TranscriptionEnv :=
  base_env 52428800 600000 (fun _ => .ok "some text")

/-- A 50 megabyte, 600 second file splitting into three chunks, whose
second chunk makes the remote client raise an authentication error. -/
def envC3w : TranscriptionEnv :=
  base_env 52428800 600000
    (fun pth =>
      if pth = chunk_path 0 then .ok "hello"
      else if pth = chunk_path 1 then .exn "401 Unauthorized"
      else .ok "unreachable")

/-- A 30 megabyte file whose probed duration is zero milliseconds. -/
def envC4 : TranscriptionEnv :=
  base_env 31457280 0 (fun _ => .ok "unused")

/-- A 10 megabyte file below the direct upload ceiling. -/
def envC5w : TranscriptionEnv :=
  base_env 10485760 60000 (fun _ => .ok "small file transcript")

/-- Client behaviour of the large file scenario: the three chunk
transcripts are given as parameters. -/
def clientC6 (t1 t2 t3 : String) : String → ClientResult := fun pth =>
  if pth = chunk_path 0 then .ok t1
  else if pth = chunk_path 1 then .ok t2
  else if pth = chunk_path 2 then .ok t3
  else .exn "unused"

/-- The large file scenario of the specification without its client: 50
megabytes, 600000 ms. -/
def envC6core : TranscriptionEnv :=
  base_env 52428800 600000 (fun _ => .exn "unused")

/-- The large file scenario of the specification: 50 megabytes, 600000 ms,
with the three chunk transcripts given as parameters. -/
def envC6 (t1 t2 t3 : String) : TranscriptionEnv :=
  { envC6core with client := clientC6 t1 t2 t3 }

/-- An environment in which exactly one path is missing from disk. -/
def envC7w : TranscriptionEnv :=
  { base_env 10485760 60000 (fun _ => .ok "ok") with
    fileExists := fun pth => pth != "missing.mp3" }

/-- A 50 megabyte, 600 second file splitting into three chunks, whose
second chunk transcribes successfully to a text that happens to start with
the string Error. -/
def envC10w : TranscriptionEnv :=
  base_env 52428800 600000
    (fun pth =>
      if pth = chunk_path 0 then .ok "clean first chunk"
      else if pth = chunk_path 1 then .ok "Error-prone wiring was discussed next"
      else .ok "never reached")

/-- Locator environment in which ffmpeg is found through the PATH search:
no hint, no frozen layout, the second PATH entry contains ffmpeg.exe. -/
def ffEnvC8 : FfmpegEnv :=
  { files := ["/usr/local/ffmpeg.exe"], dirs := [], path := ["/a", "/usr/local"],
    frozen := false, exeDir := "/exe", appRoot := "/app", probeOk := false }

/-- Locator environment in which a custom hint directory contains the
tool. -/
def ffEnvC8w : FfmpegEnv :=
  { files := ["/hint/ffmpeg.exe"], dirs := ["/hint"], path := ["/a"],
    frozen := false, exeDir := "/exe", appRoot := "/app", probeOk := false }

/-! ### Helper lemmas about strings -/

theorem string_data_append (a b : String) : (a ++ b).data = a.data ++ b.data := by
  cases a; cases b; rfl

theorem leadsWith_append (p : List Char) :
    ∀ l m : List Char, leadsWith l p = true → leadsWith (l ++ m) p = true := by
  induction p with
  | nil => intro l m _; cases l <;> simp [leadsWith]
  | cons c cs ih =>
    intro l m h
    cases l with
    | nil => simp [leadsWith] at h
    | cons x xs =>
      simp only [leadsWith, Bool.and_eq_true] at h ⊢
      exact ⟨h.1, ih xs m h.2⟩

theorem startsW_append_left (s t pre : String) (h : startsW s pre = true) :
    startsW (s ++ t) pre = true := by
  unfold startsW at h ⊢
  rw [string_data_append]
  exact leadsWith_append _ _ _ h

theorem categorize_error_startsW (e : String) :
    startsW (categorize_error e) "Error" = true := by
  unfold categorize_error
  split_ifs <;> exact startsW_append_left _ _ _ (by decide)

theorem dropWhile_append_all (p : Char → Bool) :
    ∀ l m : List Char, (∀ c ∈ l, p c = true) →
      List.dropWhile p (l ++ m) = List.dropWhile p m := by
  intro l m hl
  induction l with
  | nil => rfl
  | cons c cs ih =>
    simp only [List.cons_append, List.dropWhile]
    rw [hl c (by simp)]
    exact ih (fun c hc => hl c (by simp [hc]))

theorem dirnameP_joinP (d f : String) (hf : ∀ c ∈ f.data, c ≠ '/') :
    dirnameP (joinP d f) = d := by
  unfold dirnameP joinP
  rw [string_data_append, string_data_append]
  have h1 : (("/" : String)).data = ['/'] := rfl
  have h2 : ((d.data ++ ['/']) ++ f.data).reverse
      = f.data.reverse ++ ('/' :: d.data.reverse) := by
    rw [List.reverse_append, List.reverse_append]
    rfl
  rw [h1, h2]
  have h3 : List.dropWhile (fun c => decide (c ≠ '/'))
      (f.data.reverse ++ ('/' :: d.data.reverse))
      = List.dropWhile (fun c => decide (c ≠ '/')) ('/' :: d.data.reverse) := by
    apply dropWhile_append_all
    intro c hc
    simp only [List.mem_reverse] at hc
    exact decide_eq_true (hf c hc)
  rw [h3]
  simp [List.dropWhile]

theorem dirnameP_join_exe (d : String) : dirnameP (joinP d "ffmpeg.exe") = d :=
  dirnameP_joinP d "ffmpeg.exe" (by decide)

/-- Two strings with fixed distinct material at character position i stay
distinct under arbitrary suffixes. -/
theorem string_append_ne (s1 s2 : String) (i : Nat)
    (hi1 : i < s1.data.length) (hi2 : i < s2.data.length)
    (hne : s1.data[i]? ≠ s2.data[i]?) :
    ∀ a b : String, s1 ++ a ≠ s2 ++ b := by
  intro a b h
  have hd : (s1 ++ a).data = (s2 ++ b).data := congrArg String.data h
  rw [string_data_append, string_data_append] at hd
  have hg := congrArg (fun l => l[i]?) hd
  simp only [List.getElem?_append_left hi1, List.getElem?_append_left hi2] at hg
  exact hne hg

/-! ### Helper lemmas about the split arithmetic -/

/-- Everything the chunk loop needs to know about the chunk count. -/
theorem num_chunks_spec (d cd n : Nat) (hd : 0 < d)
    (hn : num_chunks d cd = some n) :
    0 < cd ∧ n = ceilDiv d cd ∧ d ≤ n * cd ∧ (n - 1) * cd < d ∧ 0 < n := by
  unfold num_chunks at hn
  by_cases hcd : cd = 0
  · simp [hcd] at hn
  have hcdpos : 0 < cd := Nat.pos_of_ne_zero hcd
  simp only [hcd, if_false, Option.some_inj] at hn
  have hqr : cd * (d / cd) + d % cd = d := Nat.div_add_mod d cd
  have hr : d % cd < cd := Nat.mod_lt d hcdpos
  have hmul : cd * (d / cd + 1) = cd * (d / cd) + cd := by ring
  rcases Nat.eq_zero_or_pos (d % cd) with h0 | h0
  · rw [h0] at hn
    simp only [Nat.lt_irrefl, if_false, Nat.add_zero] at hn
    have hq : 0 < d / cd :=
      Nat.div_pos (Nat.le_of_dvd hd (Nat.dvd_of_mod_eq_zero h0)) hcdpos
    have hceil : ceilDiv d cd = d / cd := by
      unfold ceilDiv
      have h1 : d + cd - 1 = cd * (d / cd) + (cd - 1) := by omega
      rw [h1, Nat.mul_add_div hcdpos, Nat.div_eq_of_lt (show cd - 1 < cd by omega),
        Nat.add_zero]
    refine ⟨hcdpos, by rw [hceil, hn], ?_, ?_, by rw [← hn]; exact hq⟩
    · rw [← hn, Nat.mul_comm]
      omega
    · rw [← hn, Nat.sub_mul, Nat.one_mul, Nat.mul_comm]
      omega
  · rw [if_pos h0] at hn
    have hceil : ceilDiv d cd = d / cd + 1 := by
      unfold ceilDiv
      have h1 : d + cd - 1 = cd * (d / cd + 1) + (d % cd - 1) := by omega
      rw [h1, Nat.mul_add_div hcdpos, Nat.div_eq_of_lt (show d % cd - 1 < cd by omega),
        Nat.add_zero]
    refine ⟨hcdpos, by rw [hceil, hn], ?_, ?_,
      by rw [← hn]; exact Nat.succ_pos _⟩
    · rw [← hn, Nat.add_mul, Nat.one_mul, Nat.mul_comm]
      omega
    · rw [← hn, Nat.add_sub_cancel, Nat.mul_comm]
      omega

/-! ### Helper lemmas about the pipeline loops -/

/-- World bookkeeping of a fully successful export loop. -/
theorem export_loop_ok (env : TranscriptionEnv) (m cd d : Nat) :
    ∀ (idxs : List Nat) (w : World) (acc ps : List String) (w2 : World),
      export_loop env m cd d idxs w acc = (.ok ps, w2) →
      w2.disk = w.disk ++ idxs.map chunk_path ∧
      ps = acc.reverse ++ idxs.map chunk_path ∧
      w2.tempDirs = w.tempDirs ∧ w2.clientCalls = w.clientCalls ∧
      w2.splitCalls = w.splitCalls := by
  intro idxs
  induction idxs with
  | nil =>
    intro w acc ps w2 h
    simp only [export_loop, Prod.mk.injEq, Except.ok.injEq] at h
    obtain ⟨hps, hw⟩ := h
    subst hw
    simp [hps.symm]
  | cons i rest ih =>
    intro w acc ps w2 h
    simp only [export_loop] at h
    cases he : env.exportHigh i with
    | error msg => rw [he] at h; simp at h
    | ok size =>
      rw [he] at h
      simp only at h
      by_cases hsz : size > m
      · rw [if_pos hsz] at h
        cases hl : env.exportLow i with
        | error msg => rw [hl] at h; simp at h
        | ok sz2 =>
          rw [hl] at h
          simp only at h
          have hres := ih _ _ _ _ h
          simp only [List.map_cons] at hres ⊢
          refine ⟨?_, ?_, hres.2.2.1, hres.2.2.2.1, hres.2.2.2.2⟩
          · rw [hres.1]
            simp [List.append_assoc]
          · rw [hres.2.1]
            simp [List.append_assoc]
      · rw [if_neg hsz] at h
        have hres := ih _ _ _ _ h
        simp only [List.map_cons] at hres ⊢
        refine ⟨?_, ?_, hres.2.2.1, hres.2.2.2.1, hres.2.2.2.2⟩
        · rw [hres.1]
          simp [List.append_assoc]
        · rw [hres.2.1]
          simp [List.append_assoc]

/-- The transcription loop never touches the disk or the split counter. -/
theorem transcribe_chunks_world (env : TranscriptionEnv) :
    ∀ (ps : List String) (w : World) (acc : List String),
      (transcribe_chunks env ps w acc).2.disk = w.disk ∧
      (transcribe_chunks env ps w acc).2.tempDirs = w.tempDirs ∧
      (transcribe_chunks env ps w acc).2.splitCalls = w.splitCalls := by
  intro ps
  induction ps with
  | nil => intro w acc; simp [transcribe_chunks]
  | cons p rest ih =>
    intro w acc
    simp only [transcribe_chunks, transcribe_audio_chunk]
    cases hs : startsW (chunk_text env p) "Error" with
    | true => simp [hs]
    | false =>
      simp only [hs, Bool.false_eq_true, if_false]
      exact ih _ _

/-- The transcription loop stops at the first chunk whose produced text
starts with Error, after having called the client exactly on the chunks up
to and including that one. -/
theorem transcribe_chunks_stop (env : TranscriptionEnv) :
    ∀ (ps : List String) (k : Nat) (hk : k < ps.length) (w : World) (acc : List String),
      (∀ j (hj : j < k),
        startsW (chunk_text env (ps.get ⟨j, Nat.lt_trans hj hk⟩)) "Error" = false) →
      startsW (chunk_text env (ps.get ⟨k, hk⟩)) "Error" = true →
      transcribe_chunks env ps w acc =
        (.error (chunk_text env (ps.get ⟨k, hk⟩)),
         { w with clientCalls := w.clientCalls ++ ps.take (k + 1) }) := by
  intro ps
  induction ps with
  | nil => intro k hk; exact absurd hk (by simp)
  | cons p rest ih =>
    intro k hk w acc hprev hcur
    cases k with
    | zero =>
      simp only [List.get] at hcur
      simp only [transcribe_chunks, transcribe_audio_chunk, hcur, if_true]
      simp [List.take]
    | succ k' =>
      have h0 : startsW (chunk_text env p) "Error" = false := hprev 0 (Nat.succ_pos _)
      simp only [transcribe_chunks, transcribe_audio_chunk]
      simp only [List.get] at hcur ⊢
      simp only [h0, Bool.false_eq_true, if_false]
      rw [ih k' (Nat.lt_of_succ_lt_succ hk) _ _
        (fun j hj => hprev (j + 1) (Nat.succ_lt_succ hj)) hcur]
      simp [List.take, List.append_assoc]

/-- A transcription loop in which no chunk text starts with Error returns
the accumulated texts in order, after one client call per chunk. -/
theorem transcribe_chunks_ok (env : TranscriptionEnv) :
    ∀ (ps : List String) (w : World) (acc : List String),
      (∀ p ∈ ps, startsW (chunk_text env p) "Error" = false) →
      transcribe_chunks env ps w acc =
        (.ok (acc.reverse ++ ps.map (chunk_text env)),
         { w with clientCalls := w.clientCalls ++ ps }) := by
  intro ps
  induction ps with
  | nil => intro w acc _; simp [transcribe_chunks]
  | cons p rest ih =>
    intro w acc hall
    have h0 : startsW (chunk_text env p) "Error" = false := hall p (by simp)
    simp only [transcribe_chunks, transcribe_audio_chunk]
    simp only [h0, Bool.false_eq_true, if_false]
    rw [ih _ _ (fun q hq => hall q (by simp [hq]))]
    simp [List.append_assoc]

/-- Inversion of a successful split: the returned chunk paths are exactly
the paths of the chunk indices below the chunk count, all of them are on
disk together with the temporary directory, and no client call happened. -/
theorem split_ok_inv (env : TranscriptionEnv) (mb : Nat) (w : World)
    (ps : List String) (w2 : World)
    (h : split_audio_file env mb w = ((some ps, none), w2)) :
    ∃ d n, env.load = .ok d ∧
      env.fileSize > mb * 1024 * 1024 ∧
      num_chunks d (chunk_duration_ms env.fileSize d (mb * 1024 * 1024)) = some n ∧
      ps = (List.range n).map chunk_path ∧
      w2.disk = w.disk ++ ps ∧
      w2.tempDirs = w.tempDirs ++ [temp_dir_name] ∧
      w2.clientCalls = w.clientCalls ∧
      w2.splitCalls = w.splitCalls + 1 := by
  unfold split_audio_file at h
  split at h
  · simp at h
  split at h
  · simp at h
  split at h
  · simp at h
  rename_i duration_ms hload
  dsimp only at h
  split at h
  · simp at h
  rename_i hsize
  split at h
  · simp at h
  rename_i n hnum
  split at h
  · simp at h
  rename_i paths w3 hexp
  simp only [Prod.mk.injEq, Option.some_inj] at h
  obtain ⟨⟨hps, -⟩, hw⟩ := h
  subst hw
  subst hps
  have hres := export_loop_ok env (mb * 1024 * 1024)
    (chunk_duration_ms env.fileSize duration_ms (mb * 1024 * 1024)) duration_ms
    (List.range n) _ [] _ _ hexp
  refine ⟨duration_ms, n, hload, by omega, hnum, ?_, ?_, ?_, ?_, ?_⟩
  · rw [hres.2.1]
    simp
  · rw [hres.1]
    simp [hres.2.1]
  · rw [hres.2.2.1]
  · rw [hres.2.2.2.1]
  · rw [hres.2.2.2.2]

/-- A filter keeping only elements outside L erases a list contained in L. -/
theorem filter_not_mem (l L : List String) (h : ∀ x ∈ l, x ∈ L) :
    l.filter (fun x => ¬ (x ∈ L)) = [] := by
  rw [List.filter_eq_nil_iff]
  intro a ha
  simp [h a ha]

/-- Unfolding of transcribe_audio through a successful split. -/
theorem transcribe_audio_split (env : TranscriptionEnv) (p p0 : String)
    (rest : List String) (w w1 : World)
    (hclient : env.hasClient = true)
    (hsize : env.fileSize > MAX_FILE_SIZE_BYTES)
    (hsplit : split_audio_file env CHUNK_SIZE_MB w = ((some (p0 :: rest), none), w1)) :
    transcribe_audio env p w =
      (match transcribe_chunks env (p0 :: rest) w1 [] with
       | (.error e, w2) => (e, cleanup_chunks (p0 :: rest) (dirnameP p0) w2)
       | (.ok ts, w2) =>
         (String.intercalate chunk_separator ts,
          cleanup_chunks (p0 :: rest) (dirnameP p0) w2)) := by
  unfold transcribe_audio
  rw [hclient]
  simp only [Bool.not_true, Bool.false_eq_true, if_false, not_false_eq_true, if_true, hsize,
    if_pos, hsplit, not_true_eq_false]

/-- The head of a successful split chunk list is the first chunk path. -/
theorem split_head_eq (env : TranscriptionEnv) (mb : Nat) (w : World)
    (p0 : String) (rest : List String) (w1 : World)
    (h : split_audio_file env mb w = ((some (p0 :: rest), none), w1)) :
    p0 = chunk_path 0 := by
  obtain ⟨d, n, -, -, -, hps, -⟩ := split_ok_inv env mb w (p0 :: rest) w1 h
  have hn : 0 < n := by
    by_contra hn0
    have : n = 0 := by omega
    rw [this] at hps
    simp at hps
  have h0 := congrArg (fun l => l.headD "") hps
  simp only [List.headD_cons] at h0
  rw [h0]
  rcases n with - | m
  · exact absurd hn (by omega)
  · rw [List.range_succ_eq_map]
    simp

/-! ### Claim C1 -/

/-- C1, counterexample: in a run whose second chunk export raises, the
first chunk file and the temporary directory are still on disk when the
call returns, so the claimed cleanup of partial chunks does not happen. -/
theorem c1_counterexample :
    (process_audio envC1bad "big.mp3" World.empty).2.disk = [chunk_path 0] ∧
    (process_audio envC1bad "big.mp3" World.empty).2.tempDirs = [temp_dir_name] ∧
    (process_audio envC1bad "big.mp3" World.empty).1 =
      split_error_text "No space left on device" := by
  decide

/-- C1, amended: for every process_audio call in which the chunk export
step completes and hands back the chunk list, no temporary chunk file and
no temporary directory remains on disk when the call returns, whether the
chunk transcriptions all succeed or one of them fails; when the export
step itself raises partway, the partial chunks are not removed (see the
counterexample). -/
theorem c1_cleanup_after_completed_export (env : TranscriptionEnv) (p p0 : String)
    (rest : List String) (w1 : World)
    (hclient : env.hasClient = true)
    (hsize : env.fileSize > MAX_FILE_SIZE_BYTES)
    (hsplit : split_audio_file env CHUNK_SIZE_MB World.empty = ((some (p0 :: rest), none), w1)) :
    (transcribe_audio env p World.empty).2.disk = [] ∧
    (transcribe_audio env p World.empty).2.tempDirs = [] := by
  rw [transcribe_audio_split env p p0 rest World.empty w1 hclient hsize hsplit]
  obtain ⟨d, n, -, -, -, hps, hdisk, hdirs, -, -⟩ :=
    split_ok_inv env CHUNK_SIZE_MB World.empty (p0 :: rest) w1 hsplit
  have hp0 : p0 = chunk_path 0 :=
    split_head_eq env CHUNK_SIZE_MB World.empty p0 rest w1 hsplit
  have hdn : dirnameP p0 = temp_dir_name := by rw [hp0]; decide
  have hw := transcribe_chunks_world env (p0 :: rest) w1 []
  rcases htc : transcribe_chunks env (p0 :: rest) w1 [] with ⟨r, w2⟩
  rw [htc] at hw
  simp only at hw
  have hd2 : w2.disk = p0 :: rest := by
    rw [hw.1, hdisk]
    simp [World.empty]
  have ht2 : w2.tempDirs = [temp_dir_name] := by
    rw [hw.2.1, hdirs]
    simp [World.empty]
  cases r with
  | error e =>
    simp only [cleanup_chunks, hdn]
    refine ⟨?_, ?_⟩
    · rw [hd2]
      exact filter_not_mem _ _ (fun x hx => hx)
    · rw [ht2]
      simp
  | ok ts =>
    simp only [cleanup_chunks, hdn]
    refine ⟨?_, ?_⟩
    · rw [hd2]
      exact filter_not_mem _ _ (fun x hx => hx)
    · rw [ht2]
      simp

/-- C1, witness: a concrete fully successful three chunk run ends with an
empty temporary state. -/
theorem c1_witness :
    (transcribe_audio envC1good "big.mp3" World.empty).2.disk = [] ∧
    (transcribe_audio envC1good "big.mp3" World.empty).2.tempDirs = [] :=
  c1_cleanup_after_completed_export envC1good "big.mp3" (chunk_path 0)
    [chunk_path 1, chunk_path 2]
    ⟨[], 1, [chunk_path 0, chunk_path 1, chunk_path 2], [temp_dir_name],
      [(0, 216000), (216000, 432000), (432000, 600000)]⟩
    (by decide) (by decide) (by decide)

/-! ### Claim C4 -/

/-- C4, code bug evaluation: for a 30 megabyte file whose probed duration
is zero milliseconds, the fallback chunk duration is zero, the chunk count
computation divides by zero (the Python run raises ZeroDivisionError,
caught by the generic handler at line 155 and returned as a split error),
and no two half split is produced; the temporary directory even leaks. -/
theorem c4_zero_duration_divides_by_zero :
    chunk_duration_ms 31457280 0 (CHUNK_SIZE_MB * 1024 * 1024) = 0 ∧
    num_chunks 0 (chunk_duration_ms 31457280 0 (CHUNK_SIZE_MB * 1024 * 1024)) = none ∧
    (split_audio_file envC4 CHUNK_SIZE_MB World.empty).1 =
      (none, some (split_error_text zero_division_message)) ∧
    (split_audio_file envC4 CHUNK_SIZE_MB World.empty).2.tempDirs = [temp_dir_name] := by
  decide

/-! ### Claim C5 -/

/-- C5: a configured client and an existing, supported, small enough file
make process_audio skip the split plan entirely, call the remote client
exactly once on the whole file, and return its text verbatim. -/
theorem c5_small_file_single_call (env : TranscriptionEnv) (p t : String)
    (hp : p ≠ "") (hex : env.fileExists p = true) (hfmt : supported_format p = true)
    (hclient : env.hasClient = true) (hsize : env.fileSize ≤ MAX_FILE_SIZE_BYTES)
    (ht : env.client p = .ok t) :
    process_audio env p World.empty = (t, { World.empty with clientCalls := [p] }) := by
  unfold process_audio transcribe_audio transcribe_audio_chunk chunk_text
  rw [hclient, hex, hfmt, ht]
  simp [hp, Nat.not_lt.mpr hsize, World.empty]

/-- C5, witness: a ten megabyte file is transcribed in a single client
call with zero split plan computations. -/
theorem c5_witness :
    process_audio envC5w "small.mp3" World.empty =
      ("small file transcript", { World.empty with clientCalls := ["small.mp3"] }) :=
  c5_small_file_single_call envC5w "small.mp3" "small file transcript"
    (by decide) rfl (by decide) rfl (by decide) rfl

/-! ### Claim C7 -/

/-- C7: the three precondition failures of process_audio each return their
own distinct message and leave the world untouched (no client call, no
split plan computation, no file side effect); the extension check is case
insensitive over the fixed allow list. -/
theorem c7_preconditions (env : TranscriptionEnv) (p : String) :
    process_audio env "" World.empty = (please_select_error, World.empty) ∧
    (p ≠ "" → env.fileExists p = false →
      process_audio env p World.empty = (file_not_found_error, World.empty)) ∧
    (p ≠ "" → env.fileExists p = true → supported_format p = false →
      process_audio env p World.empty = (unsupported_format_error, World.empty)) ∧
    supported_format "X.MP3" = true ∧
    supported_format "notes.txt" = false ∧
    unsupported_format_error =
      "Error: Unsupported file format. Supported formats: .mp3, .mp4, .mpeg, .mpga, .m4a, .wav, .webm" ∧
    please_select_error ≠ file_not_found_error ∧
    please_select_error ≠ unsupported_format_error ∧
    file_not_found_error ≠ unsupported_format_error := by
  refine ⟨?_, ?_, ?_, by decide, by decide, by decide, by decide, by decide, by decide⟩
  · simp [process_audio]
  · intro hp hex
    simp [process_audio, hp, hex]
  · intro hp hex hfmt
    simp [process_audio, hp, hex, hfmt]

/-- C7, witness: the missing file and the unsupported extension each hit
their own error on concrete inputs. -/
theorem c7_witness :
    process_audio envC7w "missing.mp3" World.empty = (file_not_found_error, World.empty) ∧
    process_audio envC7w "notes.txt" World.empty = (unsupported_format_error, World.empty) :=
  ⟨(c7_preconditions envC7w "missing.mp3").2.1 (by decide) (by decide),
   (c7_preconditions envC7w "notes.txt").2.2.1 (by decide) (by decide) (by decide)⟩

/-! ### Claim C2 -/

/-- C2: for a file over the chunk ceiling whose split succeeds (positive
duration, positive computed chunk duration), the chunk time ranges are
contiguous, nonoverlapping, ascending, exactly cover the interval from
zero to the duration, and their number is the ceiling of duration over
chunk duration. -/
theorem c2_chunk_ranges (file_size duration_ms cd n : Nat)
    (hbig : file_size > CHUNK_SIZE_MB * 1024 * 1024)
    (hcd : cd = chunk_duration_ms file_size duration_ms (CHUNK_SIZE_MB * 1024 * 1024))
    (hd : 0 < duration_ms) (hpos : 0 < cd)
    (hn : num_chunks duration_ms cd = some n) :
    n = ceilDiv duration_ms cd ∧
    chunk_start cd 0 = 0 ∧
    chunk_end cd duration_ms (n - 1) = duration_ms ∧
    (∀ i, i < n → chunk_start cd i < chunk_end cd duration_ms i ∧
      chunk_end cd duration_ms i ≤ duration_ms) ∧
    (∀ i, i + 1 < n → chunk_end cd duration_ms i = chunk_start cd (i + 1)) ∧
    (∀ t, t < duration_ms →
      ∃ i, i < n ∧ chunk_start cd i ≤ t ∧ t < chunk_end cd duration_ms i) ∧
    (∀ i j, i < j → j < n → chunk_end cd duration_ms i ≤ chunk_start cd j) := by
  obtain ⟨hcdpos, hceil, hle, hlt, hnpos⟩ := num_chunks_spec duration_ms cd n hd hn
  have hmul_lt : ∀ i, i < n → i * cd < duration_ms := by
    intro i hi
    have h1 : i * cd ≤ (n - 1) * cd := Nat.mul_le_mul_right cd (by omega)
    exact Nat.lt_of_le_of_lt h1 hlt
  refine ⟨hceil, by simp [chunk_start], ?_, ?_, ?_, ?_, ?_⟩
  · unfold chunk_end
    have h1 : n - 1 + 1 = n := Nat.succ_pred_eq_of_pos hnpos
    rw [h1]
    exact Nat.min_eq_right hle
  · intro i hi
    unfold chunk_start chunk_end
    constructor
    · exact Nat.lt_min.mpr
        ⟨(Nat.mul_lt_mul_right hcdpos).mpr (Nat.lt_succ_self i), hmul_lt i hi⟩
    · exact Nat.min_le_right _ _
  · intro i hi
    unfold chunk_start chunk_end
    exact Nat.min_eq_left (Nat.le_of_lt (hmul_lt (i + 1) hi))
  · intro t ht
    refine ⟨t / cd, ?_, ?_, ?_⟩
    · exact (Nat.div_lt_iff_lt_mul hcdpos).mpr (Nat.lt_of_lt_of_le ht hle)
    · exact Nat.div_mul_le_self t cd
    · unfold chunk_end
      refine Nat.lt_min.mpr ⟨?_, ht⟩
      have h1 := Nat.div_add_mod t cd
      have h2 := Nat.mod_lt t hcdpos
      rw [Nat.add_mul, Nat.one_mul, Nat.mul_comm]
      omega
  · intro i j hij hj
    unfold chunk_start chunk_end
    exact Nat.le_trans (Nat.min_le_left _ _) (Nat.mul_le_mul_right cd hij)

/-- C2, witness: the 50 megabyte, 600 second scenario has three chunks
whose last range ends exactly at the duration. -/
theorem c2_witness :
    3 = ceilDiv 600000 216000 ∧ chunk_end 216000 600000 2 = 600000 :=
  let h := c2_chunk_ranges 52428800 600000 216000 3 (by decide) (by decide)
    (by decide) (by decide) (by decide)
  ⟨h.1, h.2.2.1⟩

/-! ### Claims C3 and C10: the abort behaviour of the chunk loop -/

/-- A run through a successful split stops at the first chunk whose
produced text starts with Error: that text is the returned result, and the
client was called exactly on the chunks up to and including that one. -/
theorem transcribe_audio_stops_at (env : TranscriptionEnv) (p : String)
    (ps : List String) (w1 : World) (k : Nat) (hk : k < ps.length)
    (hclient : env.hasClient = true)
    (hsize : env.fileSize > MAX_FILE_SIZE_BYTES)
    (hsplit : split_audio_file env CHUNK_SIZE_MB World.empty = ((some ps, none), w1))
    (hprev : ∀ j (hj : j < k),
      startsW (chunk_text env (ps.get ⟨j, Nat.lt_trans hj hk⟩)) "Error" = false)
    (hcur : startsW (chunk_text env (ps.get ⟨k, hk⟩)) "Error" = true) :
    (transcribe_audio env p World.empty).1 = chunk_text env (ps.get ⟨k, hk⟩) ∧
    (transcribe_audio env p World.empty).2.clientCalls = ps.take (k + 1) := by
  obtain ⟨d, n, -, -, -, -, -, -, hcc, -⟩ :=
    split_ok_inv env CHUNK_SIZE_MB World.empty ps w1 hsplit
  cases ps with
  | nil => exact absurd hk (by simp)
  | cons p0 rest =>
    rw [transcribe_audio_split env p p0 rest World.empty w1 hclient hsize hsplit]
    rw [transcribe_chunks_stop env (p0 :: rest) k hk w1 [] hprev hcur]
    refine ⟨rfl, ?_⟩
    simp only [cleanup_chunks]
    rw [hcc]
    simp [World.empty]

/-- C3: whenever the remote client reports an error for chunk k of a multi
chunk run (every earlier chunk having come back as a clean transcript, so
that the run actually reaches chunk k), the pipeline returns the
categorised error for chunk k, attempts no chunk after k, and discards the
transcripts of the chunks before k; the three error classes produce
pairwise distinct message shapes, each retaining the underlying detail. -/
theorem c3_client_error_aborts (env : TranscriptionEnv) (p : String)
    (ps : List String) (w1 : World) (k : Nat) (e : String) (hk : k < ps.length)
    (hclient : env.hasClient = true)
    (hsize : env.fileSize > MAX_FILE_SIZE_BYTES)
    (hsplit : split_audio_file env CHUNK_SIZE_MB World.empty = ((some ps, none), w1))
    (hprev : ∀ j (hj : j < k), ∃ t,
      env.client (ps.get ⟨j, Nat.lt_trans hj hk⟩) = .ok t ∧ startsW t "Error" = false)
    (hfail : env.client (ps.get ⟨k, hk⟩) = .exn e) :
    (transcribe_audio env p World.empty).1 = categorize_error e ∧
    (transcribe_audio env p World.empty).2.clientCalls = ps.take (k + 1) ∧
    startsW (categorize_error e) "Error" = true ∧
    ((hasSub e "400" || hasSub e "invalid_request_error") = true →
      categorize_error e = "Error: Invalid file format or file is corrupted. Details: " ++ e) ∧
    ((hasSub e "400" || hasSub e "invalid_request_error") = false →
      (hasSub e "401" || hasSub (lowerStr e) "unauthorized") = true →
      categorize_error e = "Error: Invalid API key. Details: " ++ e) ∧
    ((hasSub e "400" || hasSub e "invalid_request_error") = false →
      (hasSub e "401" || hasSub (lowerStr e) "unauthorized") = false →
      categorize_error e = "Error during transcription: " ++ e) ∧
    (∀ a b : String,
      ("Error: Invalid file format or file is corrupted. Details: " ++ a ≠
        "Error: Invalid API key. Details: " ++ b) ∧
      ("Error: Invalid file format or file is corrupted. Details: " ++ a ≠
        "Error during transcription: " ++ b) ∧
      ("Error: Invalid API key. Details: " ++ a ≠ "Error during transcription: " ++ b)) := by
  have hct : chunk_text env (ps.get ⟨k, hk⟩) = categorize_error e := by
    unfold chunk_text
    rw [hfail]
  have hprev2 : ∀ j (hj : j < k),
      startsW (chunk_text env (ps.get ⟨j, Nat.lt_trans hj hk⟩)) "Error" = false := by
    intro j hj
    obtain ⟨t, hcl, hts⟩ := hprev j hj
    unfold chunk_text
    rw [hcl]
    exact hts
  have hm := transcribe_audio_stops_at env p ps w1 k hk hclient hsize hsplit hprev2
    (by rw [hct]; exact categorize_error_startsW e)
  refine ⟨by rw [hm.1, hct], hm.2, categorize_error_startsW e, ?_, ?_, ?_, ?_⟩
  · intro h4
    unfold categorize_error
    rw [h4]
    simp
  · intro h4 h1
    unfold categorize_error
    rw [h4, h1]
    simp
  · intro h4 h1
    unfold categorize_error
    rw [h4, h1]
    simp
  · intro a b
    exact ⟨string_append_ne _ _ 15 (by decide) (by decide) (by decide) a b,
      string_append_ne _ _ 5 (by decide) (by decide) (by decide) a b,
      string_append_ne _ _ 5 (by decide) (by decide) (by decide) a b⟩

/-- C3, witness: in the three chunk run whose second chunk raises an
authentication error, the result is the categorised auth message and the
third chunk is never sent. -/
theorem c3_witness :
    (transcribe_audio envC3w "big.mp3" World.empty).1 =
      categorize_error "401 Unauthorized" ∧
    (transcribe_audio envC3w "big.mp3" World.empty).2.clientCalls =
      [chunk_path 0, chunk_path 1] := by
  have h := c3_client_error_aborts envC3w "big.mp3"
    [chunk_path 0, chunk_path 1, chunk_path 2]
    ⟨[], 1, [chunk_path 0, chunk_path 1, chunk_path 2], [temp_dir_name],
      [(0, 216000), (216000, 432000), (432000, 600000)]⟩
    1 "401 Unauthorized" (by decide) rfl (by decide) (by decide)
    (by
      intro j hj
      refine ⟨"hello", ?_, by decide⟩
      have hj0 : j = 0 := by omega
      subst hj0
      exact rfl)
    (by decide)
  exact ⟨h.1, h.2.1⟩

/-- C10: chunk failure is detected by the string Error appearing at the
start of the produced text, not by the client success signal: a chunk
whose genuinely successful transcript starts with Error aborts the run,
its text is returned as the overall error, no later chunk is attempted,
and the earlier transcripts are discarded. -/
theorem c10_error_shaped_text_aborts (env : TranscriptionEnv) (p : String)
    (ps : List String) (w1 : World) (k : Nat) (s : String) (hk : k < ps.length)
    (hclient : env.hasClient = true)
    (hsize : env.fileSize > MAX_FILE_SIZE_BYTES)
    (hsplit : split_audio_file env CHUNK_SIZE_MB World.empty = ((some ps, none), w1))
    (hprev : ∀ j (hj : j < k),
      startsW (chunk_text env (ps.get ⟨j, Nat.lt_trans hj hk⟩)) "Error" = false)
    (hok : env.client (ps.get ⟨k, hk⟩) = .ok s)
    (hpre : startsW s "Error" = true) :
    (transcribe_audio env p World.empty).1 = s ∧
    (transcribe_audio env p World.empty).2.clientCalls = ps.take (k + 1) := by
  have hct : chunk_text env (ps.get ⟨k, hk⟩) = s := by
    unfold chunk_text
    rw [hok]
  have hm := transcribe_audio_stops_at env p ps w1 k hk hclient hsize hsplit hprev
    (by rw [hct]; exact hpre)
  exact ⟨by rw [hm.1, hct], hm.2⟩

/-- C10, witness: a successful second transcript that begins with Error is
returned as the overall error and the third chunk is never sent. -/
theorem c10_witness :
    (transcribe_audio envC10w "big.mp3" World.empty).1 =
      "Error-prone wiring was discussed next" ∧
    (transcribe_audio envC10w "big.mp3" World.empty).2.clientCalls =
      [chunk_path 0, chunk_path 1] := by
  have h := c10_error_shaped_text_aborts envC10w "big.mp3"
    [chunk_path 0, chunk_path 1, chunk_path 2]
    ⟨[], 1, [chunk_path 0, chunk_path 1, chunk_path 2], [temp_dir_name],
      [(0, 216000), (216000, 432000), (432000, 600000)]⟩
    1 "Error-prone wiring was discussed next" (by decide) rfl (by decide) (by decide)
    (by
      intro j hj
      have hj0 : j = 0 := by omega
      subst hj0
      exact rfl)
    (by decide) (by decide)
  exact ⟨h.1, h.2⟩

/-! ### Claim C6 -/

/-- The export loop never consults the remote client. -/
theorem export_loop_client_irrel (env : TranscriptionEnv) (cl : String → ClientResult)
    (m cd d : Nat) :
    ∀ (idxs : List Nat) (w : World) (acc : List String),
      export_loop { env with client := cl } m cd d idxs w acc =
        export_loop env m cd d idxs w acc := by
  intro idxs
  induction idxs with
  | nil => intro w acc; rfl
  | cons i rest ih =>
    intro w acc
    have hH : ({ env with client := cl } : TranscriptionEnv).exportHigh = env.exportHigh := rfl
    have hL : ({ env with client := cl } : TranscriptionEnv).exportLow = env.exportLow := rfl
    simp only [export_loop, hH, hL]
    cases env.exportHigh i with
    | error msg => rfl
    | ok size =>
      simp only
      by_cases hsz : size > m
      · rw [if_pos hsz, if_pos hsz]
        cases env.exportLow i with
        | error msg => rfl
        | ok sz2 => exact ih _ _
      · rw [if_neg hsz, if_neg hsz]
        exact ih _ _

/-- The split step never consults the remote client. -/
theorem split_client_irrel (env : TranscriptionEnv) (cl : String → ClientResult)
    (mb : Nat) (w : World) :
    split_audio_file { env with client := cl } mb w = split_audio_file env mb w := by
  have h1 : ({ env with client := cl } : TranscriptionEnv).pydubAvailable
      = env.pydubAvailable := rfl
  have h2 : ({ env with client := cl } : TranscriptionEnv).ffmpegAvailable
      = env.ffmpegAvailable := rfl
  have h3 : ({ env with client := cl } : TranscriptionEnv).load = env.load := rfl
  have h4 : ({ env with client := cl } : TranscriptionEnv).fileSize = env.fileSize := rfl
  unfold split_audio_file
  rw [h1, h2, h3, h4]
  simp only [export_loop_client_irrel]

/-- When the three precondition checks pass, process_audio returns what
transcribe_audio returns (lines 272 to 278 of transcription.py). -/
theorem process_audio_passthrough (env : TranscriptionEnv) (p : String) (w : World)
    (hp : p ≠ "") (hex : env.fileExists p = true) (hfmt : supported_format p = true) :
    process_audio env p w = transcribe_audio env p w := by
  unfold process_audio
  rw [hex]
  simp [hp, hfmt]

/-- C6: in the 50 megabyte, 600000 millisecond scenario with ceiling 20
megabytes and safety factor nine tenths, the target chunk duration is
216000 ms, the chunk count is three, the three ranges are exported in
ascending order, three client calls are made in index order, and the three
transcripts are joined with a blank line separator. -/
theorem c6_large_file_scenario (t1 t2 t3 : String)
    (h1 : startsW t1 "Error" = false)
    (h2 : startsW t2 "Error" = false)
    (h3 : startsW t3 "Error" = false) :
    chunk_duration_ms 52428800 600000 (CHUNK_SIZE_MB * 1024 * 1024) = 216000 ∧
    num_chunks 600000 216000 = some 3 ∧
    (split_audio_file (envC6 t1 t2 t3) CHUNK_SIZE_MB World.empty).2.exportLog =
      [(0, 216000), (216000, 432000), (432000, 600000)] ∧
    (process_audio (envC6 t1 t2 t3) "video.mp4" World.empty).1 =
      t1 ++ chunk_separator ++ t2 ++ chunk_separator ++ t3 ∧
    (process_audio (envC6 t1 t2 t3) "video.mp4" World.empty).2.clientCalls =
      [chunk_path 0, chunk_path 1, chunk_path 2] := by
  have hsplit : split_audio_file (envC6 t1 t2 t3) CHUNK_SIZE_MB World.empty =
      ((some [chunk_path 0, chunk_path 1, chunk_path 2], none),
       ⟨[], 1, [chunk_path 0, chunk_path 1, chunk_path 2], [temp_dir_name],
        [(0, 216000), (216000, 432000), (432000, 600000)]⟩) := by
    unfold envC6
    rw [split_client_irrel envC6core (clientC6 t1 t2 t3) CHUNK_SIZE_MB World.empty]
    decide
  have hc0 : chunk_text (envC6 t1 t2 t3) (chunk_path 0) = t1 := rfl
  have hc1 : chunk_text (envC6 t1 t2 t3) (chunk_path 1) = t2 := rfl
  have hc2 : chunk_text (envC6 t1 t2 t3) (chunk_path 2) = t3 := rfl
  have hall : ∀ q ∈ [chunk_path 0, chunk_path 1, chunk_path 2],
      startsW (chunk_text (envC6 t1 t2 t3) q) "Error" = false := by
    intro q hq
    simp only [List.mem_cons, List.not_mem_nil, or_false] at hq
    rcases hq with rfl | rfl | rfl
    · rw [hc0]; exact h1
    · rw [hc1]; exact h2
    · rw [hc2]; exact h3
  have hpass := process_audio_passthrough (envC6 t1 t2 t3) "video.mp4" World.empty
    (by decide) rfl (by decide)
  have hta := transcribe_audio_split (envC6 t1 t2 t3) "video.mp4" (chunk_path 0)
    [chunk_path 1, chunk_path 2] World.empty
    ⟨[], 1, [chunk_path 0, chunk_path 1, chunk_path 2], [temp_dir_name],
      [(0, 216000), (216000, 432000), (432000, 600000)]⟩
    rfl (by rw [show (envC6 t1 t2 t3).fileSize = 52428800 from rfl]; decide) hsplit
  have hok := transcribe_chunks_ok (envC6 t1 t2 t3)
    [chunk_path 0, chunk_path 1, chunk_path 2]
    ⟨[], 1, [chunk_path 0, chunk_path 1, chunk_path 2], [temp_dir_name],
      [(0, 216000), (216000, 432000), (432000, 600000)]⟩
    [] hall
  refine ⟨rfl, rfl, by rw [hsplit], ?_, ?_⟩
  · rw [hpass, hta, hok]
    simp only [List.map_cons, List.map_nil, hc0, hc1, hc2]
    rfl
  · rw [hpass, hta, hok]
    simp only [List.map_cons, List.map_nil, hc0, hc1, hc2]
    rfl

/-- C6, witness: the scenario at three concrete transcripts. -/
theorem c6_witness :
    (process_audio (envC6 "alpha" "beta" "gamma") "video.mp4" World.empty).1 =
      "alpha" ++ chunk_separator ++ "beta" ++ chunk_separator ++ "gamma" ∧
    (process_audio (envC6 "alpha" "beta" "gamma") "video.mp4" World.empty).2.clientCalls =
      [chunk_path 0, chunk_path 1, chunk_path 2] :=
  let h := c6_large_file_scenario "alpha" "beta" "gamma" (by decide) (by decide) (by decide)
  ⟨h.2.2.2.1, h.2.2.2.2⟩

/-! ### Claims C8 and C9: the media tool locator -/

theorem which_cons_mem (files : List String) (d : String) (rest : List String)
    (h : joinP d "ffmpeg.exe" ∈ files) :
    which_ffmpeg files (d :: rest) = some (joinP d "ffmpeg.exe") := by
  simp [which_ffmpeg, h]

theorem which_cons_not (files : List String) (d : String) (rest : List String)
    (h : joinP d "ffmpeg.exe" ∉ files) :
    which_ffmpeg files (d :: rest) = which_ffmpeg files rest := by
  simp [which_ffmpeg, h]

/-- The custom hint branch always prepends the directory of the path it
resolves. -/
theorem custom_lookup_dir (env : FfmpegEnv) (c p dd : String)
    (h : custom_lookup env c = some (p, dd)) : dd = dirnameP p := by
  unfold custom_lookup at h
  dsimp only at h
  split_ifs at h <;>
    first
      | exact Option.noConfusion h
      | (injection h with h1
         injection h1 with h2 h3
         subst h2
         subst h3
         rfl)

/-- The frozen branch resolves the ffmpeg executable inside the directory
it prepends. -/
theorem frozen_lookup_eq (env : FfmpegEnv) (p dd : String)
    (h : frozen_lookup env = some (p, dd)) : p = joinP dd "ffmpeg.exe" := by
  unfold frozen_lookup at h
  dsimp only at h
  split_ifs at h <;>
    first
      | exact Option.noConfusion h
      | (injection h with h1
         injection h1 with h2 h3
         subst h2
         subst h3
         rfl)

/-- The application directory branch resolves the ffmpeg executable inside
the directory it prepends. -/
theorem app_lookup_eq (env : FfmpegEnv) (p dd : String)
    (h : app_lookup env = some (p, dd)) : p = joinP dd "ffmpeg.exe" := by
  unfold app_lookup at h
  dsimp only at h
  split_ifs at h <;>
    first
      | exact Option.noConfusion h
      | (injection h with h1
         injection h1 with h2 h3
         subst h2
         subst h3
         first
           | rfl
           | rw [dirnameP_join_exe])

/-- C8, counterexample: when ffmpeg is resolved through the PATH search,
the call succeeds but PATH is left unchanged, so the directory containing
the resolved executable is not prepended. -/
theorem c8_counterexample :
    check_ffmpeg ffEnvC8 "" = ((true, some "/usr/local/ffmpeg.exe"), ["/a", "/usr/local"]) ∧
    ffEnvC8.path = ["/a", "/usr/local"] ∧
    (check_ffmpeg ffEnvC8 "").2 ≠
      dirnameP "/usr/local/ffmpeg.exe" :: ffEnvC8.path := by
  decide

/-- C8, amended: on every successful resolution, either the directory
containing the resolved executable is prepended to PATH (all branches that
locate an executable file on disk), or PATH is returned unchanged and the
tool was found by the PATH search or by the bare version probe. -/
theorem c8_path_prepend_amended (env : FfmpegEnv) (custom p : String)
    (path2 : List String)
    (h : check_ffmpeg env custom = ((true, some p), path2)) :
    path2 = dirnameP p :: env.path ∨
    (path2 = env.path ∧
      (which_ffmpeg env.files env.path = some p ∨ p = "ffmpeg")) := by
  unfold check_ffmpeg at h
  cases hc : custom_lookup env custom with
  | some pd =>
    obtain ⟨pp, dd⟩ := pd
    rw [hc] at h
    simp only [Prod.mk.injEq, Option.some_inj, true_and] at h
    obtain ⟨hp, hpath⟩ := h
    subst hp
    subst hpath
    left
    rw [custom_lookup_dir env custom pp dd hc]
  | none =>
    rw [hc] at h
    cases hw : which_ffmpeg env.files env.path with
    | some wp =>
      rw [hw] at h
      simp only [Prod.mk.injEq, Option.some_inj, true_and] at h
      obtain ⟨hp, hpath⟩ := h
      subst hp
      subst hpath
      right
      exact ⟨rfl, Or.inl rfl⟩
    | none =>
      rw [hw] at h
      cases hf : frozen_lookup env with
      | some pd =>
        obtain ⟨pp, dd⟩ := pd
        rw [hf] at h
        simp only [Prod.mk.injEq, Option.some_inj, true_and] at h
        obtain ⟨hp, hpath⟩ := h
        subst hp
        subst hpath
        left
        have he := frozen_lookup_eq env pp dd hf
        rw [he, dirnameP_join_exe]
      | none =>
        rw [hf] at h
        cases ha : app_lookup env with
        | some pd =>
          obtain ⟨pp, dd⟩ := pd
          rw [ha] at h
          simp only [Prod.mk.injEq, Option.some_inj, true_and] at h
          obtain ⟨hp, hpath⟩ := h
          subst hp
          subst hpath
          left
          have he := app_lookup_eq env pp dd ha
          rw [he, dirnameP_join_exe]
        | none =>
          rw [ha] at h
          by_cases hpk : env.probeOk
          · rw [if_pos hpk] at h
            simp only [Prod.mk.injEq, Option.some_inj, true_and] at h
            obtain ⟨hp, hpath⟩ := h
            subst hp
            subst hpath
            right
            exact ⟨rfl, Or.inr rfl⟩
          · rw [if_neg hpk] at h
            simp at h

/-- C8, witness: a custom hint directory resolution prepends that
directory. -/
theorem c8_witness :
    (["/hint", "/a"] : List String) = dirnameP "/hint/ffmpeg.exe" :: ffEnvC8w.path ∨
    ((["/hint", "/a"] : List String) = ffEnvC8w.path ∧
      (which_ffmpeg ffEnvC8w.files ffEnvC8w.path = some "/hint/ffmpeg.exe" ∨
        "/hint/ffmpeg.exe" = "ffmpeg")) :=
  c8_path_prepend_amended ffEnvC8w "/hint" "/hint/ffmpeg.exe" ["/hint", "/a"] (by decide)

/-- C9: calling check_ffmpeg twice in a row with the same hint and the
same filesystem yields the same availability and path, although the first
call may have prepended a directory to PATH. -/
theorem c9_check_ffmpeg_idempotent (env : FfmpegEnv) (custom : String) :
    (check_ffmpeg { env with path := (check_ffmpeg env custom).2 } custom).1 =
      (check_ffmpeg env custom).1 := by
  have hcu : ∀ x : List String,
      custom_lookup { env with path := x } custom = custom_lookup env custom :=
    fun x => rfl
  have hfr : ∀ x : List String,
      frozen_lookup { env with path := x } = frozen_lookup env :=
    fun x => rfl
  have hap : ∀ x : List String,
      app_lookup { env with path := x } = app_lookup env :=
    fun x => rfl
  cases hc : custom_lookup env custom with
  | some pd =>
    obtain ⟨p, dd⟩ := pd
    have h1 : check_ffmpeg env custom = ((true, some p), dd :: env.path) := by
      unfold check_ffmpeg
      rw [hc]
    have h2 : check_ffmpeg { env with path := dd :: env.path } custom =
        ((true, some p), dd :: (dd :: env.path)) := by
      unfold check_ffmpeg
      rw [hcu _, hc]
    rw [h1]
    dsimp only
    rw [h2]
  | none =>
    cases hw : which_ffmpeg env.files env.path with
    | some wp =>
      have h1 : check_ffmpeg env custom = ((true, some wp), env.path) := by
        unfold check_ffmpeg
        rw [hc, hw]
      have he : ({ env with path := env.path } : FfmpegEnv) = env := rfl
      rw [h1]
      dsimp only
      rw [he, h1]
    | none =>
      cases hf : frozen_lookup env with
      | some pd =>
        obtain ⟨p, dd⟩ := pd
        have hpd : p = joinP dd "ffmpeg.exe" := frozen_lookup_eq env p dd hf
        have h1 : check_ffmpeg env custom = ((true, some p), dd :: env.path) := by
          unfold check_ffmpeg
          rw [hc, hw, hf]
        rw [h1]
        dsimp only
        by_cases hm : joinP dd "ffmpeg.exe" ∈ env.files
        · have h2 : check_ffmpeg { env with path := dd :: env.path } custom =
              ((true, some (joinP dd "ffmpeg.exe")), dd :: env.path) := by
            unfold check_ffmpeg
            rw [hcu _, hc]
            rw [show ({ env with path := dd :: env.path } : FfmpegEnv).files
              = env.files from rfl]
            rw [which_cons_mem env.files dd env.path hm]
          rw [h2, hpd]
        · have h2 : check_ffmpeg { env with path := dd :: env.path } custom =
              ((true, some p), dd :: (dd :: env.path)) := by
            unfold check_ffmpeg
            rw [hcu _, hc]
            rw [show ({ env with path := dd :: env.path } : FfmpegEnv).files
              = env.files from rfl]
            rw [which_cons_not env.files dd env.path hm, hw, hfr _, hf]
          rw [h2]
      | none =>
        cases ha : app_lookup env with
        | some pd =>
          obtain ⟨p, dd⟩ := pd
          have hpd : p = joinP dd "ffmpeg.exe" := app_lookup_eq env p dd ha
          have h1 : check_ffmpeg env custom = ((true, some p), dd :: env.path) := by
            unfold check_ffmpeg
            rw [hc, hw, hf, ha]
          rw [h1]
          dsimp only
          by_cases hm : joinP dd "ffmpeg.exe" ∈ env.files
          · have h2 : check_ffmpeg { env with path := dd :: env.path } custom =
                ((true, some (joinP dd "ffmpeg.exe")), dd :: env.path) := by
              unfold check_ffmpeg
              rw [hcu _, hc]
              rw [show ({ env with path := dd :: env.path } : FfmpegEnv).files
                = env.files from rfl]
              rw [which_cons_mem env.files dd env.path hm]
            rw [h2, hpd]
          · have h2 : check_ffmpeg { env with path := dd :: env.path } custom =
                ((true, some p), dd :: (dd :: env.path)) := by
              unfold check_ffmpeg
              rw [hcu _, hc]
              rw [show ({ env with path := dd :: env.path } : FfmpegEnv).files
                = env.files from rfl]
              rw [which_cons_not env.files dd env.path hm, hw, hfr _, hf, hap _, ha]
            rw [h2]
        | none =>
          by_cases hpk : env.probeOk
          · have h1 : check_ffmpeg env custom = ((true, some "ffmpeg"), env.path) := by
              unfold check_ffmpeg
              rw [hc, hw, hf, ha, if_pos hpk]
            have he : ({ env with path := env.path } : FfmpegEnv) = env := rfl
            rw [h1]
            dsimp only
            rw [he, h1]
          · have h1 : check_ffmpeg env custom = ((false, none), env.path) := by
              unfold check_ffmpeg
              rw [hc, hw, hf, ha, if_neg hpk]
            have he : ({ env with path := env.path } : FfmpegEnv) = env := rfl
            rw [h1]
            dsimp only
            rw [he, h1]

end Whispera
